import Mathlib

/-!
Verification of core components of the ulogger and ulog_console packages:
the persistent-index circular buffer, the COBS frame decoder, the packet
reassembler of ApplicationLogs, the serial reader loop, the viewer queue
drain and the ELF section loader.  Every definition translates the Python
source; machine bytes are modelled as natural numbers reduced mod 256 at
the points where the Python bytes type guarantees the range.
-/

/-- Circular buffer with persistent absolute indexes, translated from
ulog_console/buffer.py.  The Python field named end is called end_ here
because end is a Lean keyword. -/
structure PersistantIndexCircularBuffer (α : Type) where
  maxlen : Nat
  buffer : List (Option α)
  abs_indexes : List (Option Nat)
  start : Nat
  end_ : Nat
  size : Nat
  next_abs_index : Nat
deriving DecidableEq

/-- The buffer produced by the Python constructor with the given maxlen. -/
def PersistantIndexCircularBuffer.init (α : Type) (maxlen : Nat) :
    PersistantIndexCircularBuffer α :=
  ⟨maxlen, List.replicate maxlen none, List.replicate maxlen none, 0, 0, 0, 0⟩

/-- PersistantIndexCircularBuffer.append from ulog_console/buffer.py. -/
def PersistantIndexCircularBuffer.append (b : PersistantIndexCircularBuffer α)
    (item : α) : PersistantIndexCircularBuffer α :=
  let buffer := b.buffer.set b.end_ (some item)
  let abs_indexes := b.abs_indexes.set b.end_ (some b.next_abs_index)
  let end_ := (b.end_ + 1) % b.maxlen
  if b.size < b.maxlen then
    { b with buffer := buffer, abs_indexes := abs_indexes, end_ := end_,
             size := b.size + 1, next_abs_index := b.next_abs_index + 1 }
  else
    { b with buffer := buffer, abs_indexes := abs_indexes, end_ := end_,
             start := (b.start + 1) % b.maxlen,
             next_abs_index := b.next_abs_index + 1 }

/-- head_abs_index from ulog_console/buffer.py. -/
def PersistantIndexCircularBuffer.head_abs_index
    (b : PersistantIndexCircularBuffer α) : Option Nat :=
  if b.size = 0 then none else b.abs_indexes.getD b.start none

/-- tail_abs_index from ulog_console/buffer.py.  The Python expression
(end - 1) % maxlen computes on ints; since 0 <= end < maxlen holds in every
reachable state, it equals (end + maxlen - 1) % maxlen on naturals. -/
def PersistantIndexCircularBuffer.tail_abs_index
    (b : PersistantIndexCircularBuffer α) : Option Nat :=
  if b.size = 0 then none
  else b.abs_indexes.getD ((b.end_ + b.maxlen - 1) % b.maxlen) none

/-- A sequence of append calls, oldest item first. -/
def PersistantIndexCircularBuffer.appendAll (b : PersistantIndexCircularBuffer α)
    (items : List α) : PersistantIndexCircularBuffer α :=
  items.foldl PersistantIndexCircularBuffer.append b

lemma append_eq_of_lt {α : Type} {b : PersistantIndexCircularBuffer α} (x : α)
    (h : b.size < b.maxlen) :
    b.append x =
      { b with buffer := b.buffer.set b.end_ (some x),
               abs_indexes := b.abs_indexes.set b.end_ (some b.next_abs_index),
               end_ := (b.end_ + 1) % b.maxlen,
               size := b.size + 1, next_abs_index := b.next_abs_index + 1 } := by
  simp [PersistantIndexCircularBuffer.append, h]

lemma append_eq_of_ge {α : Type} {b : PersistantIndexCircularBuffer α} (x : α)
    (h : ¬ b.size < b.maxlen) :
    b.append x =
      { b with buffer := b.buffer.set b.end_ (some x),
               abs_indexes := b.abs_indexes.set b.end_ (some b.next_abs_index),
               end_ := (b.end_ + 1) % b.maxlen,
               start := (b.start + 1) % b.maxlen,
               next_abs_index := b.next_abs_index + 1 } := by
  simp [PersistantIndexCircularBuffer.append, h]

lemma getD_set_eq {α : Type} (a d : α) :
    ∀ (l : List α) (i : Nat), i < l.length → (l.set i a).getD i d = a := by
  intro l
  induction l with
  | nil => intro i h; simp at h
  | cons hd tl ih =>
    intro i h
    cases i with
    | zero => simp
    | succ n =>
      simp only [List.set, List.getD_cons_succ]
      exact ih n (by simpa using h)

lemma getD_set_ne {α : Type} (a d : α) :
    ∀ (l : List α) (i j : Nat), i ≠ j → (l.set i a).getD j d = l.getD j d := by
  intro l
  induction l with
  | nil => intro i j _; simp
  | cons hd tl ih =>
    intro i j hij
    cases i with
    | zero =>
      cases j with
      | zero => exact absurd rfl hij
      | succ m => simp
    | succ n =>
      cases j with
      | zero => simp
      | succ m =>
        simp only [List.set, List.getD_cons_succ]
        exact ih n m (by omega)

lemma add_mod_ne_self (C s j : Nat) (hs : s < C) (hj0 : 0 < j) (hjC : j < C) :
    (s + j) % C ≠ s := by
  rcases Nat.lt_or_ge (s + j) C with h | h
  · rw [Nat.mod_eq_of_lt h]; omega
  · rw [Nat.mod_eq_sub_mod h, Nat.mod_eq_of_lt (by omega)]
    omega

/-- Invariant tying the buffer state after K appends on a capacity-C buffer
to the description of its contents used by the spec. -/
structure BufInv (α : Type) (C K : Nat) (b : PersistantIndexCircularBuffer α) : Prop where
  hnext : b.next_abs_index = K
  hmax : b.maxlen = C
  hend : b.end_ = K % C
  hsize : b.size = min K C
  hstart : b.start = (K - min K C) % C
  hlen : b.abs_indexes.length = C
  hidx : ∀ i, i < min K C →
    b.abs_indexes.getD ((b.start + i) % C) none = some (K - min K C + i)

lemma bufInv_init (α : Type) (C : Nat) :
    BufInv α C 0 (PersistantIndexCircularBuffer.init α C) := by
  refine ⟨rfl, rfl, ?_, ?_, ?_, ?_, ?_⟩
  · simp [PersistantIndexCircularBuffer.init]
  · simp [PersistantIndexCircularBuffer.init]
  · simp [PersistantIndexCircularBuffer.init]
  · simp [PersistantIndexCircularBuffer.init]
  · intro i hi; simp at hi

lemma bufInv_append {α : Type} {C K : Nat} {b : PersistantIndexCircularBuffer α}
    (hC : 0 < C) (h : BufInv α C K b) (x : α) :
    BufInv α C (K + 1) (b.append x) := by
  obtain ⟨hnext, hmax, hend, hsize, hstart, hlen, hidx⟩ := h
  rcases Nat.lt_or_ge K C with hKC | hKC
  · -- the buffer is not yet full: size = K < C
    have hminK : min K C = K := Nat.min_eq_left (Nat.le_of_lt hKC)
    have hmin1 : min (K + 1) C = K + 1 := Nat.min_eq_left hKC
    have hsz : b.size < b.maxlen := by rw [hsize, hmax, hminK]; exact hKC
    have hstart0 : b.start = 0 := by rw [hstart, hminK]; simp
    have hendK : b.end_ = K := by rw [hend, Nat.mod_eq_of_lt hKC]
    rw [append_eq_of_lt x hsz]
    refine ⟨?_, ?_, ?_, ?_, ?_, ?_, ?_⟩
    · simp [hnext]
    · exact hmax
    · simp [hendK, hmax, Nat.mod_add_mod]
    · simp [hsize, hminK, hmin1]
    · simp [hstart0, hmin1]
    · simp [List.length_set, hlen]
    · intro i hi
      rw [hmin1] at hi
      have hiC : i < C := by omega
      simp only [hstart0, Nat.zero_add, Nat.mod_eq_of_lt hiC, hendK, hnext, hmin1]
      rcases Nat.lt_or_ge i K with hiK | hiK
      · rw [getD_set_ne _ _ _ _ _ (by omega)]
        have hx := hidx i (by rw [hminK]; exact hiK)
        rw [hstart0, Nat.zero_add, Nat.mod_eq_of_lt hiC, hminK] at hx
        rw [hx]
        congr 1
        omega
      · have hiEq : i = K := by omega
        subst hiEq
        rw [getD_set_eq _ _ _ _ (by rw [hlen]; exact hKC)]
        congr 1
        omega
  · -- the buffer is full: size = C
    have hminK : min K C = C := Nat.min_eq_right hKC
    have hmin1 : min (K + 1) C = C := Nat.min_eq_right (by omega)
    have hsz : ¬ b.size < b.maxlen := by rw [hsize, hmax, hminK]; omega
    have hstarteq : b.start = (K - C) % C := by rw [hstart, hminK]
    have hendstart : b.end_ = b.start := by
      rw [hend, hstarteq]
      have hKsplit : K = (K - C) + C := by omega
      conv_lhs => rw [hKsplit]
      rw [Nat.add_mod_right]
    have hstartlt : b.start < C := by rw [hstarteq]; exact Nat.mod_lt _ hC
    rw [append_eq_of_ge x hsz]
    refine ⟨?_, ?_, ?_, ?_, ?_, ?_, ?_⟩
    · simp [hnext]
    · exact hmax
    · simp only [hend, hmax, Nat.mod_add_mod]
    · simp [hsize, hminK, hmin1]
    · simp only [hstarteq, hmax, hmin1, Nat.mod_add_mod]
      congr 1
      omega
    · simp [List.length_set, hlen]
    · intro i hi
      rw [hmin1] at hi
      simp only [hmax, hnext, hmin1]
      rw [Nat.mod_add_mod]
      rcases Nat.lt_or_ge i (C - 1) with hilt | hige
      · -- an old element, shifted by one place
        have hne : (b.start + (1 + i)) % C ≠ b.end_ := by
          rw [hendstart]
          exact add_mod_ne_self C b.start (1 + i) hstartlt (by omega) (by omega)
        have harith : b.start + 1 + i = b.start + (1 + i) := by omega
        rw [harith, getD_set_ne _ _ _ _ _ (fun hc => hne hc.symm)]
        have hx := hidx (i + 1) (by rw [hminK]; omega)
        have harith2 : b.start + (1 + i) = b.start + (i + 1) := by omega
        rw [harith2, hx]
        congr 1
        rw [hminK]
        omega
      · -- the newest element, written at the old start position
        have hiEq : i = C - 1 := by omega
        subst hiEq
        have hpos : (b.start + 1 + (C - 1)) % C = b.end_ := by
          rw [hendstart]
          have harith : b.start + 1 + (C - 1) = C + b.start := by omega
          rw [harith, Nat.add_mod_left, Nat.mod_eq_of_lt hstartlt]
        rw [hpos, getD_set_eq _ _ _ _ (by rw [hlen, hendstart]; exact hstartlt)]
        congr 1
        omega

lemma bufInv_appendAll {α : Type} {C : Nat} (hC : 0 < C) :
    ∀ (items : List α) (K : Nat) (b : PersistantIndexCircularBuffer α),
      BufInv α C K b → BufInv α C (K + items.length) (b.appendAll items) := by
  intro items
  induction items with
  | nil => intro K b h; simpa [PersistantIndexCircularBuffer.appendAll] using h
  | cons hd tl ih =>
    intro K b h
    have h1 := bufInv_append hC h hd
    have h2 := ih (K + 1) (b.append hd) h1
    simpa [PersistantIndexCircularBuffer.appendAll, Nat.add_comm, Nat.add_assoc,
      Nat.add_left_comm] using h2

lemma bufInv_size {α : Type} {C K : Nat} {b : PersistantIndexCircularBuffer α}
    (h : BufInv α C K b) : b.size = min K C := h.hsize

lemma bufInv_head {α : Type} {C K : Nat} {b : PersistantIndexCircularBuffer α}
    (hC : 0 < C) (hK : 1 ≤ K) (h : BufInv α C K b) :
    b.head_abs_index = some (K - C) := by
  have hmin : 0 < min K C := by omega
  have hstartlt : b.start < C := by rw [h.hstart]; exact Nat.mod_lt _ hC
  have hx := h.hidx 0 hmin
  rw [Nat.add_zero, Nat.mod_eq_of_lt hstartlt] at hx
  rw [PersistantIndexCircularBuffer.head_abs_index,
      if_neg (by rw [h.hsize]; omega), hx]
  congr 1
  omega

lemma bufInv_tail {α : Type} {C K : Nat} {b : PersistantIndexCircularBuffer α}
    (hC : 0 < C) (hK : 1 ≤ K) (h : BufInv α C K b) :
    b.tail_abs_index = some (K - 1) := by
  have hmin : 0 < min K C := by omega
  have hx := h.hidx (min K C - 1) (by omega)
  have hpose : (b.end_ + b.maxlen - 1) % b.maxlen = (b.start + (min K C - 1)) % C := by
    rw [h.hend, h.hmax, h.hstart]
    have h1 : K % C + C - 1 = K % C + (C - 1) := by omega
    rw [h1, Nat.mod_add_mod, Nat.mod_add_mod]
    have h2 : K + (C - 1) = (K - 1) + C := by omega
    rw [h2, Nat.add_mod_right]
    have h3 : K - min K C + (min K C - 1) = K - 1 := by omega
    rw [h3]
  rw [PersistantIndexCircularBuffer.tail_abs_index,
      if_neg (by rw [h.hsize]; omega), hpose, hx]
  congr 1
  omega

/-- C5: for every ring buffer constructed with positive capacity C, after
K >= 1 appends, len() (the size field) equals min(K, C), tail_abs_index()
equals K-1 and head_abs_index() equals max(0, K-C) (natural subtraction);
and at C=4 with 10 appends the retained absolute indices are exactly
6, 7, 8 and 9. -/
theorem C5_ring_buffer_shape {α : Type} (C : Nat) (items : List α)
    (hC : 0 < C) (hK : 1 ≤ items.length) :
    (((PersistantIndexCircularBuffer.init α C).appendAll items).size
        = min items.length C ∧
     ((PersistantIndexCircularBuffer.init α C).appendAll items).tail_abs_index
        = some (items.length - 1) ∧
     ((PersistantIndexCircularBuffer.init α C).appendAll items).head_abs_index
        = some (items.length - C)) ∧
    ((PersistantIndexCircularBuffer.init Nat 4).appendAll (List.range 10)).abs_indexes
        = [some 8, some 9, some 6, some 7] := by
  have hinv := bufInv_appendAll (α := α) hC items 0 _ (bufInv_init α C)
  rw [Nat.zero_add] at hinv
  exact ⟨⟨bufInv_size hinv, bufInv_tail hC hK hinv, bufInv_head hC hK hinv⟩,
         by decide⟩

theorem C5_ring_buffer_shape_witness :
    (((PersistantIndexCircularBuffer.init Nat 4).appendAll (List.range 10)).size
        = min (List.range 10).length 4 ∧
     ((PersistantIndexCircularBuffer.init Nat 4).appendAll (List.range 10)).tail_abs_index
        = some ((List.range 10).length - 1) ∧
     ((PersistantIndexCircularBuffer.init Nat 4).appendAll (List.range 10)).head_abs_index
        = some ((List.range 10).length - 4)) ∧
    ((PersistantIndexCircularBuffer.init Nat 4).appendAll (List.range 10)).abs_indexes
        = [some 8, some 9, some 6, some 7] :=
  C5_ring_buffer_shape 4 (List.range 10) (by decide) (by decide)

/-- C8: for every non-empty buffer state reachable by a sequence of appends
from a freshly constructed buffer of positive capacity,
tail_abs_index - head_abs_index + 1 equals len(). -/
theorem C8_ring_buffer_span_invariant {α : Type} (C : Nat) (items : List α)
    (hC : 0 < C) (hne : 1 ≤ items.length) :
    ∀ t h, ((PersistantIndexCircularBuffer.init α C).appendAll items).tail_abs_index = some t →
      ((PersistantIndexCircularBuffer.init α C).appendAll items).head_abs_index = some h →
      t - h + 1 = ((PersistantIndexCircularBuffer.init α C).appendAll items).size := by
  intro t h ht hh
  have hinv := bufInv_appendAll (α := α) hC items 0 _ (bufInv_init α C)
  rw [Nat.zero_add] at hinv
  rw [bufInv_tail hC hne hinv] at ht
  rw [bufInv_head hC hne hinv] at hh
  rw [bufInv_size hinv]
  have h1 : t = items.length - 1 := by injection ht with h'; omega
  have h2 : h = items.length - C := by injection hh with h'; omega
  omega

theorem C8_ring_buffer_span_invariant_witness :
    (9 : Nat) - 6 + 1
      = ((PersistantIndexCircularBuffer.init Nat 4).appendAll (List.range 10)).size :=
  C8_ring_buffer_span_invariant 4 (List.range 10) (by decide) (by decide) 9 6
    (by decide) (by decide)

/-- COBS end-of-frame marker, from serial_reader.py and reader_new.py. -/
def EOF_MARKER : Nat := 0xA6

/-- The while loop inside cobs_decode (identical in
ulog_console/serial_reader.py and ulogger/reader_new.py).  endIdx is the
Python variable end (len(encoded) - 1), index and decoded are the loop
variables. -/
def cobs_loop (encoded : List Nat) (endIdx : Nat) (index : Nat)
    (decoded : List Nat) : Except String (List Nat) :=
  if h : index < endIdx then
    let code := encoded.getD index 0
    if code = 0 ∨ endIdx + 1 < index + code then
      .error "Invalid COBS code byte"
    else
      let decoded1 := decoded ++ (encoded.drop (index + 1)).take (code - 1)
      let decoded2 :=
        if code ≠ 0xFF ∧ index + 1 + (code - 1) < endIdx then
          decoded1 ++ [EOF_MARKER]
        else decoded1
      cobs_loop encoded endIdx (index + 1 + (code - 1)) decoded2
  else
    .ok decoded
termination_by endIdx - index
decreasing_by omega

/-- cobs_decode from ulog_console/serial_reader.py (the copy in
ulogger/reader_new.py is byte-for-byte identical).  The error string is the
one in the source. -/
def cobs_decode (encoded : List Nat) : Except String (List Nat) :=
  if encoded = [] ∨ encoded.getLast? ≠ some EOF_MARKER then
    .error "Missing or invalid 0xAA frame terminator"
  else
    cobs_loop encoded (encoded.length - 1) 0 []

/-- The COBS rule as the spec words it, group by group over the raw frame:
the first byte of a group is a nonzero count c; the next c-1 bytes are
copied verbatim; a sentinel is emitted after the group iff c is not 0xFF
and the group does not end the frame; c = 0 or a count overshooting the
frame is an error.  rem is the unprocessed tail of the frame, whose final
byte is the frame terminator; processing stops when only the terminator
remains. -/
def cobs_rule (rem : List Nat) : Except String (List Nat) :=
  match rem with
  | [] => .ok []
  | c :: rest =>
    if rest = [] then .ok []
    else if c = 0 ∨ rest.length + 1 < c then .error "Invalid COBS code byte"
    else
      let grp := rest.take (c - 1)
      let rest2 := rest.drop (c - 1)
      Except.map (fun tail =>
        grp ++ ((if c ≠ 0xFF ∧ 1 < rest2.length then [EOF_MARKER] else []) ++ tail))
        (cobs_rule rest2)
termination_by rem.length
decreasing_by
  simp only [List.length_drop, List.length_cons]
  rename_i hrest _
  have : rest.length ≠ 0 := fun hz => hrest (List.eq_nil_of_length_eq_zero hz)
  omega

lemma getD_eq_head_drop {α : Type} (l : List α) (i : Nat) (d : α) :
    l.getD i d = (l.drop i).headD d := by
  induction l generalizing i with
  | nil => simp [List.getD]
  | cons hd tl ih =>
    cases i with
    | zero => simp
    | succ m => simp [ih m]

theorem cobs_loop_eq_rule (encoded : List Nat) (n index : Nat) (acc : List Nat)
    (hlen : encoded.length = n + 1) (hidx : index ≤ n + 1) :
    cobs_loop encoded n index acc
      = Except.map (fun t => acc ++ t) (cobs_rule (encoded.drop index)) := by
  rcases Nat.lt_or_ge index n with hlt | hge
  · have hremlen : (encoded.drop index).length = n + 1 - index := by
      rw [List.length_drop, hlen]
    rcases hrem : encoded.drop index with _ | ⟨c, rest⟩
    · rw [hrem] at hremlen; simp at hremlen; omega
    · have hrestlen : rest.length = n - index := by
        rw [hrem] at hremlen; simp at hremlen; omega
      have hrestne : ¬ rest = [] := by
        intro hz; rw [hz] at hrestlen; simp at hrestlen; omega
      have hcode : encoded.getD index 0 = c := by
        rw [getD_eq_head_drop, hrem]; rfl
      have hdropsucc : encoded.drop (index + 1) = rest := by
        rw [← List.tail_drop, hrem]; rfl
      rw [cobs_loop, dif_pos hlt]
      simp only [hcode, hdropsucc]
      by_cases hA : c = 0 ∨ n + 1 < index + c
      · have hB : c = 0 ∨ rest.length + 1 < c := by
          rcases hA with h0 | hover
          · exact Or.inl h0
          · right; omega
        rw [if_pos hA]
        conv_rhs => rw [cobs_rule]
        rw [if_neg hrestne, if_pos hB]
        rfl
      · have hB : ¬ (c = 0 ∨ rest.length + 1 < c) := by
          intro hB'
          rcases hB' with h0 | hover
          · exact hA (Or.inl h0)
          · exact hA (Or.inr (by omega))
        have hc0 : c ≠ 0 := fun h0 => hA (Or.inl h0)
        have hcle : index + c ≤ n + 1 := by omega
        rw [if_neg hA]
        have hind : index + 1 + (c - 1) = index + c := by omega
        rw [hind]
        rw [cobs_loop_eq_rule encoded n (index + c) _ hlen (by omega)]
        have hdrop2 : encoded.drop (index + c) = rest.drop (c - 1) := by
          rw [← hdropsucc, List.drop_drop]
          congr 1
          omega
        rw [hdrop2]
        conv_rhs => rw [cobs_rule]
        rw [if_neg hrestne, if_neg hB]
        dsimp only
        have hsent : (c ≠ 0xFF ∧ index + c < n)
            ↔ (c ≠ 0xFF ∧ 1 < (rest.drop (c - 1)).length) := by
          apply and_congr_right
          intro _
          rw [List.length_drop, hrestlen]
          omega
        by_cases hS : c ≠ 0xFF ∧ index + c < n
        · rw [if_pos hS, if_pos (hsent.mp hS)]
          rcases hres : cobs_rule (rest.drop (c - 1)) with e | t <;>
            simp [hres, Except.map, List.append_assoc]
        · rw [if_neg hS, if_neg (fun h => hS (hsent.mpr h))]
          rcases hres : cobs_rule (rest.drop (c - 1)) with e | t <;>
            simp [hres, Except.map, List.append_assoc]
  · rw [cobs_loop, dif_neg (by omega)]
    have hremlen : (encoded.drop index).length = n + 1 - index := by
      rw [List.length_drop, hlen]
    rcases hrem : encoded.drop index with _ | ⟨c, rest⟩
    · simp [cobs_rule, Except.map]
    · have : rest = [] := by
        rw [hrem] at hremlen
        simp at hremlen
        have : rest.length = 0 := by omega
        exact List.eq_nil_of_length_eq_zero this
      subst this
      rw [cobs_rule]
      simp [Except.map]
termination_by n + 1 - index
decreasing_by omega

/-- C6: for every raw frame whose trailing byte is the sentinel, cobs_decode
produces exactly the payload described by the COBS rule of the spec
(formalised as cobs_rule, including its c = 0 and overshoot failures), and
a frame whose trailing byte is not the sentinel fails with the
malformed-frame error. -/
theorem C6_cobs_decode_follows_rule (encoded : List Nat) :
    (encoded.getLast? = some EOF_MARKER → cobs_decode encoded = cobs_rule encoded) ∧
    (encoded.getLast? ≠ some EOF_MARKER →
      cobs_decode encoded = .error "Missing or invalid 0xAA frame terminator") := by
  constructor
  · intro hlast
    have hne : encoded ≠ [] := by
      intro h; rw [h] at hlast; simp at hlast
    have hpos : 0 < encoded.length := List.length_pos.mpr hne
    rw [cobs_decode, if_neg (by simp [hne, hlast])]
    rw [cobs_loop_eq_rule encoded (encoded.length - 1) 0 [] (by omega) (by omega)]
    rw [List.drop_zero]
    rcases h : cobs_rule encoded with e | t <;> simp [h, Except.map]
  · intro hlast
    rw [cobs_decode, if_pos (Or.inr hlast)]

theorem C6_cobs_decode_follows_rule_witness :
    ([2, 97, 0xA6].getLast? = some EOF_MARKER ∧
      cobs_decode [2, 97, 0xA6] = cobs_rule [2, 97, 0xA6]) ∧
    ([3, 2].getLast? ≠ some EOF_MARKER ∧
      cobs_decode [3, 2] = .error "Missing or invalid 0xAA frame terminator") :=
  ⟨⟨by decide, (C6_cobs_decode_follows_rule [2, 97, 0xA6]).1 (by decide)⟩,
   ⟨by decide, (C6_cobs_decode_follows_rule [3, 2]).2 (by decide)⟩⟩

/-- Wire argument types of ulogger/logs.py (TypeU8, TypeS8, ...).  TypeNone
is the vector terminator and never appears inside a decoded type vector, so
it has no constructor here. -/
inductive Ty
  | u8 | s8 | b8 | u16 | s16 | ptr16 | u32 | s32 | f32 | str
deriving DecidableEq

/-- The wire length of each type (the length class attribute).  Strings are
variable length and carry 0, as in the source. -/
def Ty.length : Ty → Nat
  | .u8 | .s8 | .b8 => 1
  | .u16 | .s16 | .ptr16 => 2
  | .u32 | .s32 | .f32 => 4
  | .str => 0

/-- A decoded argument value.  Integers of all widths become Int after
sign handling; a float is kept as its 32-bit pattern (its numeric reading
is not needed by any claim); a string value is identified by the byte
content the source decodes (text decoding with errors replaced is injective
on these bytes). -/
inductive Value
  | int (i : Int)
  | bool (b : Bool)
  | str (bytes : List Nat)
  | f32bits (w : Nat)
deriving DecidableEq

/-- Little-endian byte list to natural number, each byte reduced mod 256
(the Python bytes type guarantees the range). -/
def wordLE : List Nat → Nat
  | [] => 0
  | b :: rest => b % 256 + 256 * wordLE rest

/-- int.from_bytes(data, byte_order): little reads bytes LSB first, big
MSB first. -/
def word (little : Bool) (l : List Nat) : Nat :=
  if little then wordLE l else wordLE l.reverse

/-- Two-complement reading of an n-bit word, as the TypeSx.from_bytes
classes and struct signed formats produce. -/
def toSigned (bits : Nat) (v : Nat) : Int :=
  if v < 2 ^ (bits - 1) then (v : Int) else (v : Int) - 2 ^ bits

/-- struct.unpack of a single fixed-width value with the given endianness,
as used in ApplicationLogs.decode_packet; consumes exactly Ty.length bytes
of the front of data.  The str arm is never reached by decode_packet
(strings take the dedicated branch). -/
def decodeFixed (t : Ty) (little : Bool) (data : List Nat) : Value :=
  match t with
  | .u8 => .int (data.getD 0 0 % 256)
  | .s8 => .int (toSigned 8 (data.getD 0 0 % 256))
  | .b8 => .bool (decide (data.getD 0 0 % 256 ≠ 0))
  | .u16 => .int (word little (data.take 2))
  | .s16 => .int (toSigned 16 (word little (data.take 2)))
  | .ptr16 => .int (word little (data.take 2))
  | .u32 => .int (word little (data.take 4))
  | .s32 => .int (toSigned 32 (word little (data.take 4)))
  | .f32 => .f32bits (word little (data.take 4))
  | .str => .str []

/-- TypeStr.from_bytes: the bytes up to the first null byte, or everything
when no null is present (takeWhile gives exactly that). -/
def takeUntilNull (l : List Nat) : List Nat := l.takeWhile (fun b => b ≠ 0)

/-- A static log record, from class Log in ulogger/logs.py.  The derived
decode_string attribute is omitted: it is computable from types and is
unused by decode_packet. -/
structure Log where
  level : Nat
  line : Nat
  filename : String
  fmt : String
  payload_length : Nat
  types : List Ty
deriving DecidableEq, Inhabited

/-- The synthetic OVERRUN record built inside decode_packet.  The format
braces of the source string are written as escapes. -/
def overrunLog : Log :=
  ⟨0, 0, "OVERRUN", "< ------------------ \x7b\x7d Logs lost ------------------ >",
   1, [.u8]⟩

/-- The synthetic START record built inside decode_packet (its format is 79
hash characters). -/
def startLog : Log :=
  ⟨0, 0, "START", String.mk (List.replicate 79 '#'), 0, []⟩

/-- The synthetic INCOMPLETE record built inside decode_packet when a first
frame displaces a pending entry: got is the number of arguments collected
so far and is recorded in the format text. -/
def incompleteLog (pid : Nat) (prev : Log) (got : Nat) : Log :=
  ⟨0, 0, "INCOMPLETE",
   "Log ID " ++ toString pid ++ " (" ++ prev.filename ++ ":" ++ toString prev.line
     ++ "): expected " ++ toString prev.types.length ++ " args, got " ++ toString got,
   0, []⟩

/-- The mutable state of class ApplicationLogs in ulogger/logs.py.
endianness true means little-endian. -/
structure ApplicationLogs where
  entries : List Log
  elf_ready : Bool
  endianness : Bool
  pending_log_id : Option Nat
  pending_args : List Value
  pending_string_chunks : List (List Nat)
  incomplete_log_queue : List (Log × List Value)
  is_first_packet : Bool
deriving DecidableEq

/-- The state built by ApplicationLogs.__init__. -/
def ApplicationLogs.initState : ApplicationLogs :=
  ⟨[], false, true, none, [], [], [], true⟩

/-- The exceptions decode_packet can raise (ElfNotReady and the ValueError
messages, distinguished by constructor). -/
inductive DecodeErr
  | elfNotReady
  | invalidLogId (id : Nat)
  | unexpectedContinuationNoPending (id : Nat)
  | unexpectedContinuationWrongId (expected got : Nat)
  | insufficientData (expected got : Nat)
deriving DecidableEq

/-- The outcome of one decode_packet call: a completed (Log, values) pair,
None (more packets needed or frame shorter than 2 bytes), or a raised
exception.  The state after the call is returned alongside, because Python
raises after having mutated self in some paths. -/
inductive DecodeResult
  | entry (log : Log) (args : List Value)
  | pending
  | err (e : DecodeErr)
deriving DecidableEq

/-- Resetting the four reassembly fields, as done by decode_packet whenever
it returns a completed entry. -/
def clearPending (s : ApplicationLogs) : ApplicationLogs :=
  { s with pending_log_id := none, pending_args := [], pending_string_chunks := [],
           is_first_packet := true }

/-- The final completeness check of decode_packet: when all arguments are
collected the entry is returned and the state cleared, otherwise None. -/
def check_complete (s : ApplicationLogs) (entry : Log) :
    ApplicationLogs × DecodeResult :=
  if s.pending_args.length = entry.types.length then
    (clearPending s, .entry entry s.pending_args)
  else (s, .pending)

/-- The argument-decoding tail of decode_packet (from the arg_idx
computation to the end of the function).  The Python re-assignment of
arg_idx under pending_string_chunks is a no-op and is not repeated here. -/
def process_arg (s : ApplicationLogs) (entry : Log) (arg_data : List Nat) :
    ApplicationLogs × DecodeResult :=
  let arg_idx := s.pending_args.length
  if entry.types.length ≤ arg_idx then
    (clearPending s, .entry entry s.pending_args)
  else
    let arg_type := entry.types.getD arg_idx .u8
    if arg_type = .str then
      let chunks := s.pending_string_chunks ++ [arg_data]
      if arg_data.contains 0 then
        check_complete
          { s with pending_args :=
                     s.pending_args ++ [.str (takeUntilNull chunks.flatten)],
                   pending_string_chunks := [] } entry
      else
        ({ s with pending_string_chunks := chunks }, .pending)
    else if arg_data.length < arg_type.length then
      (s, .err (.insufficientData arg_type.length arg_data.length))
    else
      check_complete
        { s with pending_args :=
                   s.pending_args ++ [decodeFixed arg_type s.endianness arg_data] }
        entry

/-- The ordinary-id part of decode_packet: range check, first-packet versus
continuation handling, then the argument decode. -/
def decode_ordinary (s : ApplicationLogs) (is_first : Bool) (log_id : Nat)
    (arg_data : List Nat) : ApplicationLogs × DecodeResult :=
  if s.entries.length ≤ log_id then (s, .err (.invalidLogId log_id))
  else
    let entry := s.entries.getD log_id default
    if is_first then
      let s1 :=
        match s.pending_log_id with
        | some pid =>
          { s with incomplete_log_queue :=
              s.incomplete_log_queue ++
                [(incompleteLog pid (s.entries.getD pid default)
                    s.pending_args.length, s.pending_args)] }
        | none => s
      process_arg
        { s1 with pending_log_id := some log_id, pending_args := [],
                  pending_string_chunks := [], is_first_packet := true }
        entry arg_data
    else
      match s.pending_log_id with
      | none => (s, .err (.unexpectedContinuationNoPending log_id))
      | some pid =>
        if pid = log_id then process_arg s entry arg_data
        else (s, .err (.unexpectedContinuationWrongId pid log_id))

/-- ApplicationLogs.decode_packet from ulogger/logs.py.  The Python bit
tests on the 16-bit header (raw & 0x8000 == 0 and raw & 0x7FFF) are written
as the comparison with 0x8000 and the remainder mod 0x8000, which agree
with them for every value below 2 to the 16, the range of the header
word. -/
def decode_packet (s : ApplicationLogs) (data : List Nat) :
    ApplicationLogs × DecodeResult :=
  match s.incomplete_log_queue with
  | q :: qs => ({ s with incomplete_log_queue := qs }, .entry q.1 q.2)
  | [] =>
    if s.elf_ready = false then (s, .err .elfNotReady)
    else if data.length < 2 then (s, .pending)
    else
      let log_id_raw := word s.endianness (data.take 2)
      let is_first := decide (log_id_raw < 0x8000)
      let log_id := log_id_raw % 0x8000
      let arg_data := data.drop 2
      if log_id = 0x7FFF then
        (s, .entry overrunLog [.int (arg_data.getD 0 0 % 256)])
      else if log_id = 0x7FFE then
        (s, .entry startLog [])
      else decode_ordinary s is_first log_id arg_data

example :
    decode_packet
      { ApplicationLogs.initState with
          entries := [⟨3, 10, "a.c", "x", 3, [.u16, .u8]⟩], elf_ready := true }
      [0, 0, 0x34, 0x12]
    = ({ ApplicationLogs.initState with
          entries := [⟨3, 10, "a.c", "x", 3, [.u16, .u8]⟩], elf_ready := true,
          pending_log_id := some 0, pending_args := [.int 0x1234] },
       .pending) := by decide

lemma decode_packet_queue_pop (s : ApplicationLogs) (data : List Nat)
    (q : Log × List Value) (qs : List (Log × List Value))
    (h : s.incomplete_log_queue = q :: qs) :
    decode_packet s data = ({ s with incomplete_log_queue := qs }, .entry q.1 q.2) := by
  simp only [decode_packet, h]

lemma decode_packet_main (s : ApplicationLogs) (data : List Nat)
    (hq : s.incomplete_log_queue = [])
    (hready : s.elf_ready = true)
    (hlen : 2 ≤ data.length)
    (hid1 : word s.endianness (data.take 2) % 0x8000 ≠ 0x7FFF)
    (hid2 : word s.endianness (data.take 2) % 0x8000 ≠ 0x7FFE) :
    decode_packet s data
      = decode_ordinary s (decide (word s.endianness (data.take 2) < 0x8000))
          (word s.endianness (data.take 2) % 0x8000) (data.drop 2) := by
  simp only [decode_packet, hq]
  rw [if_neg (by simp [hready]), if_neg (by omega), if_neg hid1, if_neg hid2]

lemma process_arg_queue (s : ApplicationLogs) (entry : Log) (arg_data : List Nat) :
    (process_arg s entry arg_data).1.incomplete_log_queue
      = s.incomplete_log_queue := by
  simp only [process_arg, check_complete, clearPending]
  repeat' split
  all_goals simp

/-- C9: whenever decode_packet is called while the incomplete-log queue is
non-empty, it returns the oldest queued synthetic entry at once; the input
frame is not parsed (the result and the new state do not depend on data)
and no state field other than the queue changes. -/
theorem C9_queue_pop_skips_frame (s : ApplicationLogs) (data : List Nat)
    (q : Log × List Value) (qs : List (Log × List Value))
    (h : s.incomplete_log_queue = q :: qs) :
    decode_packet s data = ({ s with incomplete_log_queue := qs }, .entry q.1 q.2) :=
  decode_packet_queue_pop s data q qs h

theorem C9_queue_pop_skips_frame_witness :
    decode_packet
      { ApplicationLogs.initState with
          elf_ready := true, incomplete_log_queue := [(startLog, [])] }
      [7, 7, 7]
    = ({ ApplicationLogs.initState with
          elf_ready := true, incomplete_log_queue := [] },
       .entry startLog []) :=
  C9_queue_pop_skips_frame _ [7, 7, 7] (startLog, []) [] rfl

/-- C1 (amended): when a first-frame for a valid ordinary id arrives while a
previous entry is pending with k collected arguments, exactly one synthetic
INCOMPLETE entry recording k is appended to the (previously empty) queue,
and it is returned by the next decode_packet call, whatever frame that call
receives. -/
theorem C1_incomplete_queued_emitted_next (s : ApplicationLogs) (data : List Nat)
    (pid : Nat)
    (hq : s.incomplete_log_queue = [])
    (hready : s.elf_ready = true)
    (hlen : 2 ≤ data.length)
    (hfirst : word s.endianness (data.take 2) < 0x8000)
    (hid1 : word s.endianness (data.take 2) % 0x8000 ≠ 0x7FFF)
    (hid2 : word s.endianness (data.take 2) % 0x8000 ≠ 0x7FFE)
    (hrange : word s.endianness (data.take 2) % 0x8000 < s.entries.length)
    (hpend : s.pending_log_id = some pid)
    (_hk : s.pending_args.length < (s.entries.getD pid default).types.length) :
    ((decode_packet s data).1.incomplete_log_queue
        = [(incompleteLog pid (s.entries.getD pid default) s.pending_args.length,
            s.pending_args)]) ∧
    (∀ d2, decode_packet (decode_packet s data).1 d2
        = ({ (decode_packet s data).1 with incomplete_log_queue := [] },
           .entry (incompleteLog pid (s.entries.getD pid default)
                     s.pending_args.length)
             s.pending_args)) := by
  have hmain := decode_packet_main s data hq hready hlen hid1 hid2
  have hdec : decide (word s.endianness (data.take 2) < 0x8000) = true :=
    decide_eq_true hfirst
  rw [hmain, decode_ordinary, if_neg (by omega), hdec]
  simp only [if_true, hpend]
  have hqueue :
      ((process_arg
          { s with
              incomplete_log_queue :=
                s.incomplete_log_queue ++
                  [(incompleteLog pid (s.entries.getD pid default)
                      s.pending_args.length, s.pending_args)],
              pending_log_id := some (word s.endianness (data.take 2) % 0x8000),
              pending_args := [], pending_string_chunks := [],
              is_first_packet := true }
          (s.entries.getD (word s.endianness (data.take 2) % 0x8000) default)
          (data.drop 2)).1).incomplete_log_queue
        = [(incompleteLog pid (s.entries.getD pid default) s.pending_args.length,
            s.pending_args)] := by
    rw [process_arg_queue]
    simp [hq]
  refine ⟨hqueue, ?_⟩
  intro d2
  exact decode_packet_queue_pop _ d2 _ [] hqueue

/-- A site with types (u16, u8) at id 0 and a site with types (u8,) at id 1,
mirroring scenario S4 of the spec. -/
def logU16U8 : Log := ⟨3, 10, "a.c", "x", 3, [.u16, .u8]⟩

def logU8 : Log := ⟨3, 20, "a.c", "y", 1, [.u8]⟩

def appTwo : ApplicationLogs :=
  { ApplicationLogs.initState with entries := [logU16U8, logU8], elf_ready := true }

/-- The state after the first frame of S4 (id 0, one u16 argument 0x1234
collected, entry still pending). -/
def appTwoPending : ApplicationLogs := (decode_packet appTwo [0, 0, 0x34, 0x12]).1

/-- C1 counterexample: in scenario S4, the call carrying the new first-frame
returns the completed new entry at once, while the synthetic INCOMPLETE
entry is only returned by the following call, so the INCOMPLETE entry
appears in the output stream after, not before, the completed entry it was
displaced by. -/
theorem C1_order_counterexample :
    (decode_packet appTwoPending [1, 0, 1]).2 = .entry logU8 [.int 1] ∧
    (decode_packet (decode_packet appTwoPending [1, 0, 1]).1 []).2
      = .entry (incompleteLog 0 logU16U8 1) [.int 0x1234] := by decide

theorem C1_incomplete_queued_emitted_next_witness :
    ((decode_packet appTwoPending [1, 0, 1]).1.incomplete_log_queue
        = [(incompleteLog 0 (appTwoPending.entries.getD 0 default)
              appTwoPending.pending_args.length, appTwoPending.pending_args)]) ∧
    (decode_packet (decode_packet appTwoPending [1, 0, 1]).1 []
        = ({ (decode_packet appTwoPending [1, 0, 1]).1 with
              incomplete_log_queue := [] },
           .entry (incompleteLog 0 (appTwoPending.entries.getD 0 default)
                     appTwoPending.pending_args.length)
             appTwoPending.pending_args)) :=
  ⟨(C1_incomplete_queued_emitted_next appTwoPending [1, 0, 1] 0 (by decide)
      (by decide) (by decide) (by decide) (by decide) (by decide) (by decide)
      (by decide) (by decide)).1,
   (C1_incomplete_queued_emitted_next appTwoPending [1, 0, 1] 0 (by decide)
      (by decide) (by decide) (by decide) (by decide) (by decide) (by decide)
      (by decide) (by decide)).2 []⟩

/-- C3 (amended): a continuation frame whose id does not match the pending
log id, or that arrives with no log pending, makes decode_packet fail with
the corresponding unexpected-continuation error and leaves the whole
reassembly state unchanged; in particular the pending log id is retained,
not reset.  (A later first-frame still starts a new entry, because the
first-packet branch never requires an empty pending state.) -/
theorem C3_unexpected_continuation_state_kept (s : ApplicationLogs)
    (data : List Nat)
    (hq : s.incomplete_log_queue = [])
    (hready : s.elf_ready = true)
    (hlen : 2 ≤ data.length)
    (hcont : 0x8000 ≤ word s.endianness (data.take 2))
    (hid1 : word s.endianness (data.take 2) % 0x8000 ≠ 0x7FFF)
    (hid2 : word s.endianness (data.take 2) % 0x8000 ≠ 0x7FFE)
    (hrange : word s.endianness (data.take 2) % 0x8000 < s.entries.length)
    (hmis : ∀ pid, s.pending_log_id = some pid
      → pid ≠ word s.endianness (data.take 2) % 0x8000) :
    decode_packet s data
      = (s, .err
          (match s.pending_log_id with
           | none => .unexpectedContinuationNoPending
               (word s.endianness (data.take 2) % 0x8000)
           | some pid => .unexpectedContinuationWrongId pid
               (word s.endianness (data.take 2) % 0x8000))) := by
  have hmain := decode_packet_main s data hq hready hlen hid1 hid2
  have hdec : decide (word s.endianness (data.take 2) < 0x8000) = false :=
    decide_eq_false (by omega)
  rw [hmain, decode_ordinary, if_neg (by omega), hdec]
  rcases hpend : s.pending_log_id with _ | pid
  · simp
  · simp [if_neg (hmis pid hpend)]

/-- A state in the middle of reassembling log 0. -/
def appTwoPendingZero : ApplicationLogs :=
  { appTwo with pending_log_id := some 0, pending_args := [.int 5] }

/-- C3 counterexample: a continuation frame for id 1 while log 0 is pending
raises the wrong-id error, but the state keeps pending_log_id = some 0:
the reassembly state is not reset to no pending log. -/
theorem C3_counterexample :
    (decode_packet appTwoPendingZero [1, 0x80]).2
        = .err (.unexpectedContinuationWrongId 0 1) ∧
    (decode_packet appTwoPendingZero [1, 0x80]).1.pending_log_id = some 0 := by
  decide

theorem C3_unexpected_continuation_state_kept_witness :
    decode_packet appTwoPendingZero [1, 0x80]
      = (appTwoPendingZero, .err
          (match appTwoPendingZero.pending_log_id with
           | none => .unexpectedContinuationNoPending
               (word appTwoPendingZero.endianness ([1, 0x80].take 2) % 0x8000)
           | some pid => .unexpectedContinuationWrongId pid
               (word appTwoPendingZero.endianness ([1, 0x80].take 2) % 0x8000))) :=
  C3_unexpected_continuation_state_kept appTwoPendingZero [1, 0x80] (by decide)
    (by decide) (by decide) (by decide) (by decide) (by decide) (by decide)
    (by decide)

lemma decode_packet_cont_match (s : ApplicationLogs) (data : List Nat)
    (hq : s.incomplete_log_queue = [])
    (hready : s.elf_ready = true)
    (hlen : 2 ≤ data.length)
    (hcont : 0x8000 ≤ word s.endianness (data.take 2))
    (hid1 : word s.endianness (data.take 2) % 0x8000 ≠ 0x7FFF)
    (hid2 : word s.endianness (data.take 2) % 0x8000 ≠ 0x7FFE)
    (hrange : word s.endianness (data.take 2) % 0x8000 < s.entries.length)
    (hpend : s.pending_log_id = some (word s.endianness (data.take 2) % 0x8000)) :
    decode_packet s data
      = process_arg s
          (s.entries.getD (word s.endianness (data.take 2) % 0x8000) default)
          (data.drop 2) := by
  rw [decode_packet_main s data hq hready hlen hid1 hid2, decode_ordinary,
    if_neg (by omega), decide_eq_false (by omega)]
  simp [hpend]

lemma process_arg_str (s : ApplicationLogs) (entry : Log) (arg_data : List Nat)
    (hidx : s.pending_args.length < entry.types.length)
    (hstr : entry.types.getD s.pending_args.length .u8 = .str) :
    process_arg s entry arg_data =
      (if arg_data.contains 0 then
        check_complete
          { s with
            pending_args := s.pending_args ++
              [.str (takeUntilNull ((s.pending_string_chunks ++ [arg_data]).flatten))],
            pending_string_chunks := [] } entry
      else
        ({ s with pending_string_chunks := s.pending_string_chunks ++ [arg_data] },
         .pending)) := by
  simp only [process_arg]
  rw [if_neg (by omega)]
  simp only [hstr]
  simp

/-- C7: when the expected argument type at the current slot is a string and
a matching continuation frame arrives, decode_packet appends the frame
payload to the pending string chunks; if the payload contains a null byte
the string argument is completed as the bytes up to the first null of the
joined chunks and the chunk buffer is cleared (and the entry is returned
when the string was the last expected argument), otherwise nothing is
produced and more frames are awaited. -/
theorem C7_string_spans_frames (s : ApplicationLogs) (data : List Nat)
    (hq : s.incomplete_log_queue = [])
    (hready : s.elf_ready = true)
    (hlen : 2 ≤ data.length)
    (hcont : 0x8000 ≤ word s.endianness (data.take 2))
    (hid1 : word s.endianness (data.take 2) % 0x8000 ≠ 0x7FFF)
    (hid2 : word s.endianness (data.take 2) % 0x8000 ≠ 0x7FFE)
    (hrange : word s.endianness (data.take 2) % 0x8000 < s.entries.length)
    (hpend : s.pending_log_id = some (word s.endianness (data.take 2) % 0x8000))
    (hidx : s.pending_args.length
      < (s.entries.getD (word s.endianness (data.take 2) % 0x8000) default).types.length)
    (hstr : (s.entries.getD (word s.endianness (data.take 2) % 0x8000)
        default).types.getD s.pending_args.length .u8 = .str) :
    decode_packet s data =
      (if (data.drop 2).contains 0 then
        check_complete
          { s with
            pending_args := s.pending_args ++
              [.str (takeUntilNull
                  ((s.pending_string_chunks ++ [data.drop 2]).flatten))],
            pending_string_chunks := [] }
          (s.entries.getD (word s.endianness (data.take 2) % 0x8000) default)
      else
        ({ s with pending_string_chunks :=
             s.pending_string_chunks ++ [data.drop 2] },
         .pending)) := by
  rw [decode_packet_cont_match s data hq hready hlen hcont hid1 hid2 hrange hpend]
  exact process_arg_str s _ (data.drop 2) hidx hstr

/-- A site whose single argument is a string, and a state that has already
collected the chunk "hello" without a terminating null. -/
def strLog : Log := ⟨1, 1, "s.c", "m", 0, [.str]⟩

def appStrPending : ApplicationLogs :=
  { ApplicationLogs.initState with
      entries := [strLog], elf_ready := true, pending_log_id := some 0,
      pending_string_chunks := [[104, 101, 108, 108, 111]] }

theorem C7_string_spans_frames_witness :
    (decode_packet appStrPending [0, 0x80, 0] =
      (if ([0, 0x80, 0].drop 2).contains 0 then
        check_complete
          { appStrPending with
            pending_args := appStrPending.pending_args ++
              [.str (takeUntilNull
                  ((appStrPending.pending_string_chunks
                      ++ [[0, 0x80, 0].drop 2]).flatten))],
            pending_string_chunks := [] }
          (appStrPending.entries.getD
            (word appStrPending.endianness ([0, 0x80, 0].take 2) % 0x8000) default)
      else
        ({ appStrPending with pending_string_chunks :=
             appStrPending.pending_string_chunks ++ [[0, 0x80, 0].drop 2] },
         .pending))) ∧
    (decode_packet appStrPending [0, 0x80, 0]).2
      = .entry strLog [.str [104, 101, 108, 108, 111]] :=
  ⟨C7_string_spans_frames appStrPending [0, 0x80, 0] (by decide) (by decide)
      (by decide) (by decide) (by decide) (by decide) (by decide) (by decide)
      (by decide) (by decide),
   by decide⟩

/-- The TYPE_MAP dictionary of decode_typecode in ulogger/logs.py. -/
def TYPE_MAP : Nat → Option Ty
  | 1 => some .u8
  | 2 => some .s8
  | 3 => some .b8
  | 4 => some .u16
  | 5 => some .s16
  | 6 => some .ptr16
  | 7 => some .u32
  | 8 => some .s32
  | 9 => some .f32
  | 10 => some .str
  | _ => none

/-- The error exits of ApplicationLogs.reset and its helpers, one
constructor per distinct ValueError of the source.  nonterminating marks
the case data_alignment = 0 with data remaining, where the Python while
loop never terminates. -/
inductive ResetErr
  | truncated
  | unknownTypeCode (code : Nat)
  | nonterminating
deriving DecidableEq

/-- The loop of decode_typecode: nibbles of the 32-bit word, low to high,
stopping at the first zero nibble, at most eight. -/
def decode_typecode_from (typecode i : Nat) : Except ResetErr (List Ty) :=
  if i < 8 then
    let code := typecode / 16 ^ i % 16
    if code = 0 then .ok []
    else
      match TYPE_MAP code with
      | none => .error (.unknownTypeCode code)
      | some t => (decode_typecode_from typecode (i + 1)).map (fun ts => t :: ts)
  else .ok []
termination_by 8 - i

def typesLength (ts : List Ty) : Nat := (ts.map Ty.length).sum

/-- decode_typecode from ulogger/logs.py: the accumulated fixed length and
the tuple of types. -/
def decode_typecode (typecode : Nat) : Except ResetErr (Nat × List Ty) :=
  (decode_typecode_from typecode 0).map (fun ts => (typesLength ts, ts))

/-- The read_cstr helper of Log.from_elf_data: the bytes before the first
null at or after offset, and the offset just past that null. -/
def read_cstr (data : List Nat) (offset : Nat) : List Nat × Nat :=
  let s := (data.drop offset).takeWhile (fun b => b ≠ 0)
  (s, offset + s.length + 1)

/-- os.path.basename on a byte string: everything after the last slash. -/
def basename (l : List Nat) : List Nat :=
  (l.reverse.takeWhile (fun b => b ≠ 47)).reverse

/-- Text decoding of a byte string.  The source decodes UTF-8 with errors
replaced; no claim inspects multi-byte text, so bytes are mapped to
characters one to one, which is injective on the byte content. -/
def decodeLatin (l : List Nat) : String :=
  String.mk (l.map (fun b => Char.ofNat (b % 256)))

/-- Log.from_elf_data from ulogger/logs.py: level, line and type word as
32-bit fields in the artifact byte order, then two consecutive
null-terminated strings (the filename, reduced to its basename, and the
format). -/
def Log.from_elf_data (data : List Nat) (le : Bool) : Except ResetErr Log :=
  let level := word le (data.take 4)
  let line := word le ((data.drop 4).take 4)
  let typecode_raw := word le ((data.drop 8).take 4)
  match decode_typecode typecode_raw with
  | .error e => .error e
  | .ok (payload_length, types) =>
    let fname := read_cstr data 12
    let fmtp := read_cstr data fname.2
    .ok ⟨level, line, decodeLatin (basename fname.1), decodeLatin fmtp.1,
         payload_length, types⟩

/-- The two section attributes ApplicationLogs.reset reads. -/
structure ElfSection where
  data : List Nat
  data_alignment : Nat

/-- The while loop of ApplicationLogs.reset.  The truncation exit discards
the accumulated entries (the 1 bad = all bad assignment); a typecode error
propagates with the entries accumulated so far, as the Python exception
does.  When data_alignment = 0 and data remains, the Python loop never
terminates; that case is marked with the nonterminating error and is
exercised by no claim. -/
def reset_loop (data : List Nat) (alignment : Nat) (le : Bool) (offset : Nat)
    (entries : List Log) : List Log × Option ResetErr :=
  if alignment = 0 then (entries, some .nonterminating)
  else if offset < data.length then
    if data.length < offset + alignment then
      ([], some .truncated)
    else
      match Log.from_elf_data ((data.drop offset).take alignment) le with
      | .error e => (entries, some e)
      | .ok entry => reset_loop data alignment le (offset + alignment)
          (entries ++ [entry])
  else (entries, none)
termination_by data.length - offset
decreasing_by omega

/-- ApplicationLogs.reset from ulogger/logs.py, returning the state after
the call and the raised error if any: entries are cleared up front, the
endianness is set, and elf_ready becomes true only when the whole section
parses. -/
def ApplicationLogs.reset (s : ApplicationLogs) (sec : ElfSection)
    (little_endian : Bool) : ApplicationLogs × Option ResetErr :=
  match reset_loop sec.data sec.data_alignment little_endian 0 [] with
  | (es, none) =>
    ({ s with entries := es, endianness := little_endian, elf_ready := true }, none)
  | (es, some e) =>
    ({ s with entries := es, endianness := little_endian }, some e)

lemma decode_typecode_from_err (tc i : Nat) (e : ResetErr)
    (h : decode_typecode_from tc i = .error e) : ∃ c, e = .unknownTypeCode c := by
  rw [decode_typecode_from] at h
  split at h
  · dsimp only at h
    split at h
    · exact absurd h (by simp)
    · split at h
      · rename_i c hc
        refine ⟨tc / 16 ^ i % 16, ?_⟩
        simp only [Except.error.injEq] at h
        exact h.symm
      · rcases hrec : decode_typecode_from tc (i + 1) with e2 | ts
        · rw [hrec] at h
          simp only [Except.map, Except.error.injEq] at h
          subst h
          exact decode_typecode_from_err tc (i + 1) e2 hrec
        · rw [hrec] at h
          simp [Except.map] at h
  · exact absurd h (by simp)
termination_by 8 - i

lemma from_elf_data_err (data : List Nat) (le : Bool) (e : ResetErr)
    (h : Log.from_elf_data data le = .error e) : ∃ c, e = .unknownTypeCode c := by
  rw [Log.from_elf_data] at h
  rcases htc : decode_typecode (word le ((data.drop 8).take 4)) with e2 | p
  · rw [htc] at h
    simp only [Except.error.injEq] at h
    subst h
    rw [decode_typecode] at htc
    rcases hfrom : decode_typecode_from (word le ((data.drop 8).take 4)) 0 with e3 | ts
    · rw [hfrom] at htc
      simp only [Except.map, Except.error.injEq] at htc
      subst htc
      exact decode_typecode_from_err _ 0 _ hfrom
    · rw [hfrom] at htc
      simp [Except.map] at htc
  · rw [htc] at h
    simp at h

lemma reset_loop_trunc (data : List Nat) (alignment : Nat) (le : Bool)
    (offset : Nat) (entries es : List Log)
    (h : reset_loop data alignment le offset entries = (es, some .truncated)) :
    es = [] := by
  rw [reset_loop] at h
  split at h
  · simp at h
  · split at h
    · split at h
      · simp only [Prod.mk.injEq] at h
        exact h.1.symm
      · split at h
        · rename_i e he
          simp only [Prod.mk.injEq, Option.some.injEq] at h
          obtain ⟨c, hc⟩ := from_elf_data_err _ _ _ he
          rw [hc] at h
          exact absurd h.2.symm (by simp)
        · exact reset_loop_trunc data alignment le (offset + alignment) _ es h
    · simp at h
termination_by data.length - offset
decreasing_by
  rename_i h0 hofs hfit _ _
  omega

/-- C10: reset computes the new entries from the section alone (clearing
the previous entries before parsing); on any failure elf_ready keeps its
previous value, and on a truncated section the entries are left empty, so
that after a failed reload of a previously loaded artifact decode_packet
answers every ordinary id with the invalid-log-id error rather than
ElfNotReady: the load is not atomic with respect to the published state. -/
theorem C10_failed_reload_not_atomic (s : ApplicationLogs) (sec : ElfSection)
    (little : Bool) (s2 : ApplicationLogs) (e : ResetErr)
    (hready : s.elf_ready = true)
    (hfail : s.reset sec little = (s2, some e)) :
    s2.elf_ready = true ∧
    (e = .truncated → s2.entries = []) ∧
    (∀ es0, ((({ s with entries := es0 } : ApplicationLogs).reset sec little).1).entries
        = s2.entries) ∧
    (∀ data, s2.incomplete_log_queue = [] → s2.entries = [] → 2 ≤ data.length →
      word s2.endianness (data.take 2) % 0x8000 ≠ 0x7FFF →
      word s2.endianness (data.take 2) % 0x8000 ≠ 0x7FFE →
      decode_packet s2 data
        = (s2, .err (.invalidLogId (word s2.endianness (data.take 2) % 0x8000)))) := by
  rcases hloop : reset_loop sec.data sec.data_alignment little 0 [] with ⟨es, oe⟩
  rcases oe with _ | e2
  · rw [ApplicationLogs.reset, hloop] at hfail
    simp at hfail
  · rw [ApplicationLogs.reset, hloop] at hfail
    simp only [Prod.mk.injEq, Option.some.injEq] at hfail
    obtain ⟨hs2, he⟩ := hfail
    subst hs2
    subst he
    refine ⟨hready, ?_, ?_, ?_⟩
    · intro htr
      subst htr
      simp only
      exact reset_loop_trunc _ _ _ _ _ _ hloop
    · intro es0
      rw [ApplicationLogs.reset]
      simp only [hloop]
    · intro data hq2 hempty hlen hid1 hid2
      have hmain := decode_packet_main _ data hq2 (by simpa using hready) hlen hid1 hid2
      have hes : es = [] := hempty
      rw [hmain, decode_ordinary, if_pos (by simp [hes])]

/-- A previously loaded state and a five-byte section with a twelve-byte
record stride: the load fails on truncation. -/
def appLoaded : ApplicationLogs :=
  { ApplicationLogs.initState with elf_ready := true, entries := [logU8] }

def truncSection : ElfSection := ⟨[1, 2, 3, 4, 5], 12⟩

def appAfterFailedReload : ApplicationLogs :=
  { ApplicationLogs.initState with elf_ready := true }

theorem C10_failed_reload_not_atomic_witness :
    appAfterFailedReload.elf_ready = true ∧
    appAfterFailedReload.entries = [] ∧
    ((({ appLoaded with entries := [logU16U8] } : ApplicationLogs).reset
        truncSection true).1).entries = appAfterFailedReload.entries ∧
    decode_packet appAfterFailedReload [3, 0]
      = (appAfterFailedReload, .err (.invalidLogId
          (word appAfterFailedReload.endianness ([3, 0].take 2) % 0x8000))) := by
  have hfail : appLoaded.reset truncSection true
      = (appAfterFailedReload, some ResetErr.truncated) := by
    rw [ApplicationLogs.reset, reset_loop]
    simp [truncSection, appLoaded, appAfterFailedReload,
      ApplicationLogs.initState]
  have h := C10_failed_reload_not_atomic appLoaded truncSection true
    appAfterFailedReload .truncated (by decide) hfail
  exact ⟨h.1, h.2.1 rfl, h.2.2.1 [logU16U8],
    h.2.2.2 [3, 0] (by decide) (h.2.1 rfl) (by decide) (by decide) (by decide)⟩

/-- The ApplicationLogs of ulog_console/logs.py, the variant used by
ulog_console/serial_reader.py: 8-bit log ids with 254/255 reserved and a
whole entry per frame. -/
structure ConsoleLogs where
  entries : List Log
  elf_ready : Bool
deriving DecidableEq

/-- The exceptions ConsoleLogs.decode_frame can raise: ElfNotReady, the
IndexError of data[0] on an empty frame, the invalid-id ValueError, and a
struct.error from unpack. -/
inductive ConsoleErr
  | elfNotReady
  | emptyFrame
  | invalidLogId (id : Nat)
  | structError
deriving DecidableEq

inductive ConsoleResult
  | entry (log : Log) (args : List Value)
  | err (e : ConsoleErr)
deriving DecidableEq

/-- The number of payload bytes struct assigns to each format character of
decode_string; the s format of TypeStr consumes one byte. -/
def Ty.structSize : Ty → Nat
  | .str => 1
  | t => t.length

/-- One value as struct.unpack with the < prefix produces it
(little-endian). -/
def unpackOne (t : Ty) (bytes : List Nat) : Value :=
  match t with
  | .str => .str (bytes.take 1)
  | _ => decodeFixed t true bytes

/-- struct.unpack("<" ++ decode_string, data): every format consumes its
exact size and the data must be consumed exactly, otherwise struct.error
(modelled as none). -/
def unpack_args : List Ty → List Nat → Option (List Value)
  | [], data => if data = [] then some [] else none
  | t :: ts, data =>
    if data.length < t.structSize then none
    else
      match unpack_args ts (data.drop t.structSize) with
      | none => none
      | some vs => some (unpackOne t (data.take t.structSize) :: vs)

/-- ConsoleLogs.decode_frame from ulog_console/logs.py: id byte, reserved
ids 255 (OVERRUN) and 254 (START), range check, then one struct.unpack of
the whole remaining payload. -/
def ConsoleLogs.decode_frame (s : ConsoleLogs) (data : List Nat) : ConsoleResult :=
  if s.elf_ready = false then .err .elfNotReady
  else
    match data with
    | [] => .err .emptyFrame
    | b0 :: rest =>
      let log_id := b0 % 256
      let entryE : Except ConsoleErr Log :=
        if log_id = 255 then .ok overrunLog
        else if log_id = 254 then .ok startLog
        else if s.entries.length ≤ log_id then .error (.invalidLogId log_id)
        else .ok (s.entries.getD log_id default)
      match entryE with
      | .error e => .err e
      | .ok entry =>
        match unpack_args entry.types rest with
        | none => .err .structError
        | some vs => .entry entry vs

/-- The state owned by Reader.thread_loop in ulog_console/serial_reader.py:
the bad_data coalescing flag and the shared ApplicationLogs. -/
structure ReaderState where
  bad_data : Bool
  app : ConsoleLogs
deriving DecidableEq

/-- What one loop iteration sends to the UI queue: the coalesced BAD_DATA
control message, or the decoded frame. -/
inductive Event
  | badData
  | log (entry : Log × List Value)
deriving DecidableEq

/-- The except-branch of the loop body: BAD_DATA is put on the queue only
on the transition of the bad_data flag from false to true. -/
def bad_step (st : ReaderState) : ReaderState × List Event :=
  if st.bad_data then (st, []) else ({ st with bad_data := true }, [.badData])

/-- One iteration of Reader.thread_loop on the raw bytes read for one
frame: the size check, cobs_decode and decode_frame under try, with
ElfNotReady continuing silently, any other exception feeding bad_step, and
success clearing the flag and emitting the decoded result. -/
def thread_step (st : ReaderState) (b : List Nat) : ReaderState × List Event :=
  if b.length < 2 then bad_step st
  else
    match cobs_decode b with
    | .error _ => bad_step st
    | .ok decoded =>
      match st.app.decode_frame decoded with
      | .err .elfNotReady => (st, [])
      | .err _ => bad_step st
      | .entry l v => ({ st with bad_data := false }, [.log (l, v)])

/-- The reader state before iteration i, frames beyond the list modelled as
empty reads. -/
def state_at (st : ReaderState) (frames : List (List Nat)) : Nat → ReaderState
  | 0 => st
  | i + 1 => (thread_step (state_at st frames i) (frames.getD i [])).1

/-- The events iteration i puts on the queue. -/
def events_at (st : ReaderState) (frames : List (List Nat)) (i : Nat) : List Event :=
  (thread_step (state_at st frames i) (frames.getD i [])).2

/-- Iteration classification: a frame fails when it is short, cobs-invalid
or decode_frame raises anything but ElfNotReady. -/
def step_fails (app : ConsoleLogs) (b : List Nat) : Bool :=
  if b.length < 2 then true
  else
    match cobs_decode b with
    | .error _ => true
    | .ok d =>
      match app.decode_frame d with
      | .err .elfNotReady => false
      | .err _ => true
      | .entry _ _ => false

/-- A frame succeeds when decode_frame returns a decoded entry. -/
def step_succeeds (app : ConsoleLogs) (b : List Nat) : Bool :=
  if b.length < 2 then false
  else
    match cobs_decode b with
    | .error _ => false
    | .ok d =>
      match app.decode_frame d with
      | .err _ => false
      | .entry _ _ => true

def emits_log (evs : List Event) : Bool :=
  evs.any (fun e => match e with | .log _ => true | _ => false)

lemma thread_step_flag (st : ReaderState) (b : List Nat) :
    (thread_step st b).1.bad_data
      = (step_fails st.app b || (!step_succeeds st.app b && st.bad_data)) := by
  unfold thread_step step_fails step_succeeds bad_step
  by_cases hlen : b.length < 2
  · simp only [if_pos hlen]
    cases hb : st.bad_data <;> simp [hb]
  · simp only [if_neg hlen]
    cases hc : cobs_decode b with
    | error e => cases hb : st.bad_data <;> simp [hb]
    | ok d =>
      dsimp only
      cases hd : st.app.decode_frame d with
      | err e => cases e <;> cases hb : st.bad_data <;> simp [hb]
      | entry l v => simp

lemma thread_step_badData (st : ReaderState) (b : List Nat) :
    Event.badData ∈ (thread_step st b).2
      ↔ (step_fails st.app b = true ∧ st.bad_data = false) := by
  unfold thread_step step_fails bad_step
  by_cases hlen : b.length < 2
  · simp only [if_pos hlen]
    cases hb : st.bad_data <;> simp [hb]
  · simp only [if_neg hlen]
    cases hc : cobs_decode b with
    | error e => cases hb : st.bad_data <;> simp [hb]
    | ok d =>
      dsimp only
      cases hd : st.app.decode_frame d with
      | err e => cases e <;> cases hb : st.bad_data <;> simp [hb]
      | entry l v => simp

lemma thread_step_log (st : ReaderState) (b : List Nat) :
    emits_log (thread_step st b).2 = step_succeeds st.app b := by
  unfold thread_step step_succeeds bad_step emits_log
  by_cases hlen : b.length < 2
  · simp only [if_pos hlen]
    cases hb : st.bad_data <;> simp [hb]
  · simp only [if_neg hlen]
    cases hc : cobs_decode b with
    | error e => cases hb : st.bad_data <;> simp [hb]
    | ok d =>
      dsimp only
      cases hd : st.app.decode_frame d with
      | err e => cases e <;> cases hb : st.bad_data <;> simp [hb]
      | entry l v => simp

lemma succeeds_not_fails (app : ConsoleLogs) (b : List Nat)
    (h : step_succeeds app b = true) : step_fails app b = false := by
  unfold step_succeeds at h
  unfold step_fails
  by_cases hlen : b.length < 2
  · simp only [if_pos hlen] at h
    exact absurd h (by simp)
  · simp only [if_neg hlen] at h ⊢
    cases hc : cobs_decode b with
    | error e => rw [hc] at h; simp at h
    | ok d =>
      rw [hc] at h
      dsimp only at h ⊢
      cases hd : app.decode_frame d with
      | err e => rw [hd] at h; simp at h
      | entry l v => cases e₂ : app.decode_frame d <;> simp_all

lemma flag_true_propagates (st : ReaderState) (frames : List (List Nat)) :
    ∀ i j, i ≤ j → (state_at st frames i).bad_data = true →
    (∀ m, i ≤ m → m < j → emits_log (events_at st frames m) = false) →
    (state_at st frames j).bad_data = true := by
  intro i j
  induction j with
  | zero =>
    intro hij hflag _
    have : i = 0 := by omega
    subst this
    exact hflag
  | succ n ih =>
    intro hij hflag hnolog
    rcases Nat.lt_or_ge i (n + 1) with hin | hin
    · have hn : (state_at st frames n).bad_data = true :=
        ih (by omega) hflag (fun m hm1 hm2 => hnolog m hm1 (by omega))
      have hev := hnolog n (by omega) (by omega)
      rw [events_at, thread_step_log] at hev
      show (thread_step (state_at st frames n) (frames.getD n [])).1.bad_data = true
      rw [thread_step_flag, hn, hev]
      simp
    · have : i = n + 1 := by omega
      subst this
      exact hflag

lemma flag_false_propagates (st : ReaderState) (frames : List (List Nat)) :
    ∀ k j, k ≤ j → (state_at st frames k).bad_data = false →
    (∀ m, k ≤ m → m < j → Event.badData ∉ events_at st frames m) →
    (state_at st frames j).bad_data = false := by
  intro k j
  induction j with
  | zero =>
    intro hkj hflag _
    have : k = 0 := by omega
    subst this
    exact hflag
  | succ n ih =>
    intro hkj hflag hnobad
    rcases Nat.lt_or_ge k (n + 1) with hkn | hkn
    · have hn : (state_at st frames n).bad_data = false :=
        ih (by omega) hflag (fun m hm1 hm2 => hnobad m hm1 (by omega))
      have hnb := hnobad n (by omega) (by omega)
      rw [events_at, thread_step_badData] at hnb
      have hfail : step_fails (state_at st frames n).app (frames.getD n []) = false := by
        by_contra hff
        exact hnb ⟨by simpa using hff, hn⟩
      show (thread_step (state_at st frames n) (frames.getD n [])).1.bad_data = false
      rw [thread_step_flag, hn, hfail]
      simp
    · have : k = n + 1 := by omega
      subst this
      exact hflag

/-- C4: in every run of the serial reader loop started with a clear
bad_data flag, (1) once BAD_DATA is emitted at step i, no later step j emits
BAD_DATA as long as no step strictly between decodes successfully; (2)
after a successful decode at step k with no BAD_DATA in between, the next
failing step j emits BAD_DATA again; and (3) a successfully decoding step
itself never emits BAD_DATA. -/
theorem C4_badData_on_transition_only (app0 : ConsoleLogs)
    (frames : List (List Nat)) :
    (∀ i j, i < j → Event.badData ∈ events_at ⟨false, app0⟩ frames i →
      (∀ m, i < m → m < j → emits_log (events_at ⟨false, app0⟩ frames m) = false) →
      Event.badData ∉ events_at ⟨false, app0⟩ frames j) ∧
    (∀ k j, k < j → emits_log (events_at ⟨false, app0⟩ frames k) = true →
      (∀ m, k < m → m < j → Event.badData ∉ events_at ⟨false, app0⟩ frames m) →
      step_fails (state_at ⟨false, app0⟩ frames j).app (frames.getD j []) = true →
      Event.badData ∈ events_at ⟨false, app0⟩ frames j) ∧
    (∀ k, emits_log (events_at ⟨false, app0⟩ frames k) = true →
      Event.badData ∉ events_at ⟨false, app0⟩ frames k) := by
  refine ⟨?_, ?_, ?_⟩
  · intro i j hij hbad hnolog
    have hfi : step_fails (state_at ⟨false, app0⟩ frames i).app (frames.getD i [])
        = true := ((thread_step_badData _ _).mp hbad).1
    have hflag1 : (state_at ⟨false, app0⟩ frames (i + 1)).bad_data = true := by
      show (thread_step (state_at ⟨false, app0⟩ frames i) (frames.getD i [])).1.bad_data
        = true
      rw [thread_step_flag, hfi]
      simp
    have hflagj : (state_at ⟨false, app0⟩ frames j).bad_data = true :=
      flag_true_propagates _ frames (i + 1) j (by omega) hflag1
        (fun m hm1 hm2 => hnolog m (by omega) hm2)
    intro hmem
    exact absurd ((thread_step_badData _ _).mp hmem).2 (by simp [hflagj])
  · intro k j hkj hsucc hnobad hfailj
    have hsk : step_succeeds (state_at ⟨false, app0⟩ frames k).app (frames.getD k [])
        = true := by
      rw [← thread_step_log]
      exact hsucc
    have hflag1 : (state_at ⟨false, app0⟩ frames (k + 1)).bad_data = false := by
      show (thread_step (state_at ⟨false, app0⟩ frames k) (frames.getD k [])).1.bad_data
        = false
      rw [thread_step_flag, hsk, succeeds_not_fails _ _ hsk]
      simp
    have hflagj : (state_at ⟨false, app0⟩ frames j).bad_data = false :=
      flag_false_propagates _ frames (k + 1) j (by omega) hflag1
        (fun m hm1 hm2 => hnobad m (by omega) hm2)
    exact (thread_step_badData _ _).mpr ⟨hfailj, hflagj⟩
  · intro k hsucc
    have hsk : step_succeeds (state_at ⟨false, app0⟩ frames k).app (frames.getD k [])
        = true := by
      rw [← thread_step_log]
      exact hsucc
    intro hmem
    have := ((thread_step_badData _ _).mp hmem).1
    rw [succeeds_not_fails _ _ hsk] at this
    exact absurd this (by simp)

lemma cobs_bad_frame : cobs_decode [0, 0xA6] = .error "Invalid COBS code byte" := by
  rw [cobs_decode, if_neg (by decide)]
  simp [cobs_loop, List.getD]

lemma cobs_good_frame : cobs_decode [2, 0, 0xA6] = .ok [0] := by
  rw [cobs_decode, if_neg (by decide)]
  simp [cobs_loop, List.getD]

/-- A console symbol table with one argument-free site, and a run of four
frames: invalid, invalid, valid, invalid. -/
def consoleSite : Log := ⟨0, 0, "f.c", "m", 0, []⟩

def appC4 : ConsoleLogs := ⟨[consoleSite], true⟩

def framesC4 : List (List Nat) := [[0, 0xA6], [0, 0xA6], [2, 0, 0xA6], [0, 0xA6]]

theorem C4_badData_on_transition_only_witness :
    Event.badData ∈ events_at ⟨false, appC4⟩ framesC4 0 ∧
    Event.badData ∉ events_at ⟨false, appC4⟩ framesC4 1 ∧
    emits_log (events_at ⟨false, appC4⟩ framesC4 2) = true ∧
    Event.badData ∉ events_at ⟨false, appC4⟩ framesC4 2 ∧
    Event.badData ∈ events_at ⟨false, appC4⟩ framesC4 3 := by
  have h := C4_badData_on_transition_only appC4 framesC4
  refine ⟨?_, ?_, ?_, ?_, ?_⟩
  · simp [events_at, state_at, framesC4, thread_step, bad_step, cobs_bad_frame]
  · exact h.1 0 1 (by omega)
      (by simp [events_at, state_at, framesC4, thread_step, bad_step,
        cobs_bad_frame])
      (by intro m h1 h2; exact absurd h2 (by omega))
  · simp [events_at, state_at, framesC4, thread_step, bad_step, cobs_bad_frame,
      cobs_good_frame, ConsoleLogs.decode_frame, unpack_args, appC4, emits_log]
  · exact h.2.2 2
      (by simp [events_at, state_at, framesC4, thread_step, bad_step,
        cobs_bad_frame, cobs_good_frame, ConsoleLogs.decode_frame, unpack_args,
        appC4, emits_log])
  · exact h.2.1 2 3 (by omega)
      (by simp [events_at, state_at, framesC4, thread_step, bad_step,
        cobs_bad_frame, cobs_good_frame, ConsoleLogs.decode_frame, unpack_args,
        appC4, emits_log])
      (by intro m h1 h2; exact absurd h2 (by omega))
      (by simp [state_at, framesC4, thread_step, bad_step, cobs_bad_frame,
        cobs_good_frame, ConsoleLogs.decode_frame, unpack_args, appC4,
        step_fails])

/-- The overflow drain at the top of Viewer.process_queue in
ulog_console/viewer.py: when the queue size exceeds 5000, every queued item
is removed with get_nowait, and the append of the overrun note sits inside
that while loop, so it runs once per drained item. -/
def process_queue_drain {α : Type} (queue : List α)
    (log_buffer : PersistantIndexCircularBuffer String) :
    List α × PersistantIndexCircularBuffer String :=
  if 5000 < queue.length then
    ([], queue.foldl
      (fun b _ => b.append "Buffer overrun - flushed 5000 items") log_buffer)
  else (queue, log_buffer)

lemma append_next_abs_index {α : Type} (b : PersistantIndexCircularBuffer α)
    (x : α) : (b.append x).next_abs_index = b.next_abs_index + 1 := by
  rcases Nat.lt_or_ge b.size b.maxlen with h | h
  · rw [append_eq_of_lt x h]
  · rw [append_eq_of_ge x (by omega)]

lemma foldl_append_next_abs (note : String) {α : Type} :
    ∀ (q : List α) (buf : PersistantIndexCircularBuffer String),
      (q.foldl (fun b _ => b.append note) buf).next_abs_index
        = buf.next_abs_index + q.length := by
  intro q
  induction q with
  | nil => intro buf; simp
  | cons hd tl ih =>
    intro buf
    simp only [List.foldl_cons, List.length_cons]
    rw [ih, append_next_abs_index]
    omega

/-- C2 (the code at the failing input): when the dispatch queue holds more
than 5000 items, the drain empties the queue but records the overrun note
once per drained item (the buffer receives queue.length appends), not the
single note per overflow episode that the spec describes. -/
theorem C2_drain_one_note_per_item {α : Type} (queue : List α)
    (log_buffer : PersistantIndexCircularBuffer String)
    (h : 5000 < queue.length) :
    (process_queue_drain queue log_buffer).1 = [] ∧
    (process_queue_drain queue log_buffer).2.next_abs_index
      = log_buffer.next_abs_index + queue.length := by
  rw [process_queue_drain, if_pos h]
  exact ⟨rfl, foldl_append_next_abs _ queue log_buffer⟩

theorem C2_drain_one_note_per_item_witness :
    (process_queue_drain (List.replicate 5001 (0 : Nat))
        (PersistantIndexCircularBuffer.init String 2)).1 = [] ∧
    (process_queue_drain (List.replicate 5001 (0 : Nat))
        (PersistantIndexCircularBuffer.init String 2)).2.next_abs_index
      = (PersistantIndexCircularBuffer.init String 2).next_abs_index
        + (List.replicate 5001 (0 : Nat)).length :=
  C2_drain_one_note_per_item (List.replicate 5001 (0 : Nat))
    (PersistantIndexCircularBuffer.init String 2)
    (by rw [List.length_replicate]; omega)
